import Mathlib

/-!
Verification of the core plan/log text parser and schedule engine of the
obsidian-todo (Kozane Journal) plugin.

The TypeScript sources are embedded shallowly: documents are `String`s
(manipulated through their underlying `List Char`), JavaScript numbers are
`Int` (with `Option Int` where a computation can produce `NaN`), and the
regular-expression matches of the source are spelled out as explicit
left-to-right scans with the same leftmost-match semantics.
-/

namespace ObsidianTodo

/-- JavaScript-style whitespace test used by `trim`/`\s`. -/
def isWs (c : Char) : Bool := c.isWhitespace

/-- Drop trailing whitespace, as `String.prototype.trimEnd`. -/
def trimRightChars (l : List Char) : List Char :=
  (l.reverse.dropWhile isWs).reverse

/-- Drop leading and trailing whitespace, as `String.prototype.trim`. -/
def trimChars (l : List Char) : List Char :=
  trimRightChars (l.dropWhile isWs)

/-- `String.prototype.split` with a one-character separator. -/
def splitOnChar (sep : Char) : List Char → List (List Char)
  | [] => [[]]
  | c :: rest =>
    let r := splitOnChar sep rest
    if c = sep then [] :: r
    else
      match r with
      | [] => [[c]]
      | h :: t => (c :: h) :: t

/-- Numeric value of a decimal digit character. -/
def dVal (c : Char) : Nat := c.toNat - 48

/-- Value of a (non-empty) list of decimal digit characters. -/
def natFromDigits (l : List Char) : Nat :=
  l.foldl (fun a c => 10 * a + dVal c) 0

/-- Model of the JavaScript `Number(str)` conversion on the string shapes this
code base produces: leading/trailing whitespace is trimmed, the empty string
is `0`, an optionally signed run of decimal digits is its value, and every
other form (which the plugin never feeds to `Number` except through malformed
user input) is conservatively modelled as `NaN`, represented by `none`. -/
def jsNumber (l : List Char) : Option Int :=
  let t := trimChars l
  if t.isEmpty then some 0
  else if t.all Char.isDigit then some (natFromDigits t)
  else
    match t with
    | '-' :: rest =>
      if !rest.isEmpty && rest.all Char.isDigit then some (-(natFromDigits rest : Int)) else none
    | '+' :: rest =>
      if !rest.isEmpty && rest.all Char.isDigit then some (natFromDigits rest) else none
    | _ => none

/-- Lexicographic comparison of character lists; models what
`localeCompare` computes on the ASCII `"HH:MM"` strings compared here
(`lexLe a b` iff `a ≤ b`). -/
def lexLe : List Char → List Char → Bool
  | [], _ => true
  | _ :: _, [] => false
  | a :: as, b :: bs => if a < b then true else if b < a then false else lexLe as bs

/-! ## Data model (src/types.ts) -/

/-- Configuration record, from `src/types.ts`. -/
structure PluginSettings where
  tasksFolder : String
  dailyFolder : String
  planSectionName : String
  logSectionName : String
  dailyNoteFormat : String
  timeRoundingMinutes : Int
  showStatusBar : Bool
  autoShowHistory : Bool
  lunchStartTime : String
  lunchEndTime : String
  defaultTaskFrontmatter : String
  deriving Repr, DecidableEq

/-- One completed work session, from `src/types.ts`. -/
structure WorkLogEntry where
  date : String
  startTime : String
  endTime : String
  taskName : String
  note : String
  durationMinutes : Int
  deriving Repr, DecidableEq

/-- One planned sub-task line, from `src/types.ts`. -/
structure PlanEntry where
  taskName : String
  subTask : String
  plannedMinutes : Int
  deriving Repr, DecidableEq

/-- Aggregate over the log entries of one task, from `src/types.ts`.
The JavaScript `Set<string>` of work days is modelled as its insertion-order
list of distinct elements. -/
structure TaskSummary where
  taskName : String
  totalMinutes : Int
  sessionCount : Nat
  workDays : List String
  deriving Repr, DecidableEq

/-- An in-progress session, from `src/types.ts`; the `Date` start instant is
modelled as an abstract integer instant. -/
structure ActiveWork where
  taskName : String
  taskPath : String
  startTime : Int
  deriving Repr, DecidableEq

/-! ## Time utilities (src/parser.ts) -/

/-- `parseTimeToMinutes` (src/parser.ts:226-229):
`const [h, m] = time.split(":").map(Number); return h * 60 + m;`.
`none` models a `NaN` result (a missing or non-numeric field). -/
def parseTimeToMinutes (time : String) : Option Int :=
  match (splitOnChar ':' time.data).map jsNumber with
  | some h :: some m :: _ => some (h * 60 + m)
  | _ :: _ :: _ => none
  | [_] => none
  | [] => none

/-- `padStart(2, "0")` on the decimal rendering of a number. -/
def pad2 (s : String) : String :=
  if s.length = 0 then "00" else if s.length = 1 then "0" ++ s else s

/-- `minutesToTimeStr` (src/parser.ts:234-238). `Math.floor` division is
`Int.fdiv`; the JavaScript `%` remainder (sign of the dividend) is
`Int.tmod`. -/
def minutesToTimeStr (totalMinutes : Int) : String :=
  let h := (Int.fdiv totalMinutes 60).tmod 24
  let m := Int.tmod totalMinutes 60
  pad2 (toString h) ++ ":" ++ pad2 (toString m)

/-- The non-negative branch of `formatDuration` (src/parser.ts:208-221). -/
def formatDurationNat (n : Nat) : String :=
  let hours := n / 60
  let mins := n % 60
  if hours = 0 then toString mins ++ "分"
  else if mins = 0 then toString hours ++ "時間"
  else toString hours ++ "時間" ++ toString mins ++ "分"

/-- `formatDuration` (src/parser.ts:208-221); a negative input renders the
absolute value followed by the overrun suffix. -/
def formatDuration (totalMinutes : Int) : String :=
  if totalMinutes < 0 then formatDurationNat totalMinutes.natAbs ++ "超過"
  else formatDurationNat totalMinutes.toNat

/-- `adjustForLunchBreak` (src/parser.ts:245-272). The source parses the two
lunch times with `parseTimeToMinutes`; when a parse yields `NaN` every
comparison against it is false in JavaScript, which leaves only the branches
written out below, and the result is `NaN` (`none`) exactly when the
crossing branch adds a `NaN` lunch duration. -/
def adjustForLunchBreak (startMinutes remainingMinutes : Int)
    (lunchStartTime lunchEndTime : String) : Option Int :=
  match parseTimeToMinutes lunchStartTime, parseTimeToMinutes lunchEndTime with
  | some lunchStart, some lunchEnd =>
    let lunchDuration := lunchEnd - lunchStart
    if lunchDuration ≤ 0 then some (startMinutes + remainingMinutes)
    else if lunchStart ≤ startMinutes ∧ startMinutes < lunchEnd then
      some (lunchEnd + remainingMinutes)
    else
      let naiveEnd := startMinutes + remainingMinutes
      if startMinutes < lunchStart ∧ lunchStart < naiveEnd then
        some (naiveEnd + lunchDuration)
      else some naiveEnd
  | some lunchStart, none =>
    let naiveEnd := startMinutes + remainingMinutes
    if startMinutes < lunchStart ∧ lunchStart < naiveEnd then none else some naiveEnd
  | none, _ => some (startMinutes + remainingMinutes)

/-! ## Line grammar parser (src/parser.ts)

Each JavaScript regular expression of the source is embedded as a matcher
that tries to match at the head of a character list, together with the
generic leftmost-match scan `scanFirst` that models `String.prototype.match`:
the match attempt is repeated at every successive start position. -/

/-- Try a head-anchored matcher at every position, leftmost match first;
models `string.match(re)` for the anchored-attempt matcher `f`. -/
def scanFirst {α : Type} (f : List Char → Option α) : List Char → Option α
  | [] => f []
  | c :: rest =>
    match f (c :: rest) with
    | some r => some r
    | none => scanFirst f rest

/-- Head-anchored attempt of `/(\d{2}):(\d{2})-(\d{2}):(\d{2})/`
(src/parser.ts:37); yields the eight digit characters of the four groups. -/
def matchTimeAt (l : List Char) :
    Option (Char × Char × Char × Char × Char × Char × Char × Char) :=
  match l with
  | a :: b :: k1 :: c :: d :: da :: e :: f :: k2 :: g :: h :: _ =>
    if a.isDigit && b.isDigit && k1 = ':' && c.isDigit && d.isDigit && da = '-'
        && e.isDigit && f.isDigit && k2 = ':' && g.isDigit && h.isDigit then
      some (a, b, c, d, e, f, g, h)
    else none
  | _ => none

/-- Head-anchored attempt of `/\[\[([^\]]+)\]\]/` (src/parser.ts:38,103).
`[^\]]+` is greedy but bounded by the following `]]`, so the maximal run of
non-`]` characters is the only candidate. -/
def matchWikiAt (l : List Char) : Option (List Char) :=
  match l with
  | '[' :: '[' :: rest =>
    let nm := rest.takeWhile (fun c => c != ']')
    match nm, rest.drop nm.length with
    | _ :: _, ']' :: ']' :: _ => some nm
    | _, _ => none
  | _ => none

/-- Head-anchored attempt of `/\]\]\s*\/\s*(.+)$/` (src/parser.ts:51),
returning the trimmed note text. The lazy/greedy play of `\s*(.+)$` is
observationally `trim` of everything after the slash, defined when at least
one character follows the slash. -/
def matchLogNoteAt (l : List Char) : Option (List Char) :=
  match l with
  | ']' :: ']' :: rest =>
    match rest.dropWhile isWs with
    | '/' :: tail => if tail.isEmpty then none else some (trimChars tail)
    | _ => none
  | _ => none

/-- `parseLogLine` (src/parser.ts:36-62). -/
def parseLogLine (line : String) (date : String) : Option WorkLogEntry :=
  match scanFirst matchTimeAt line.data, scanFirst matchWikiAt line.data with
  | some (a, b, c, d, e, f, g, h), some nm =>
    let startTotal : Int := (10 * dVal a + dVal b) * 60 + (10 * dVal c + dVal d)
    let endTotal : Int := (10 * dVal e + dVal f) * 60 + (10 * dVal g + dVal h)
    let note : String :=
      match scanFirst matchLogNoteAt line.data with
      | some n => String.mk n
      | none => ""
    some { date := date
           startTime := String.mk [a, b, ':', c, d]
           endTime := String.mk [e, f, ':', g, h]
           taskName := String.mk nm
           note := note
           durationMinutes := max 0 (endTotal - startTotal) }
  | _, _ => none

/-- `[A-Za-z0-9_]`, the JavaScript `\w` class used by the `\b` boundary. -/
def isWordChar (c : Char) : Bool := c.isAlpha || c.isDigit || c = '_'

/-- Head-anchored attempt of `/(\d+(?:\.\d+)?)h\b/` (src/parser.ts:109),
returning the concatenated digits of the literal and the number of
fractional digits. Maximal-munch is exact here: shortening a greedy `\d+`
leaves a digit where `.`/`h` is required, so backtracking never succeeds. -/
def matchHourAt (l : List Char) : Option (Nat × Nat) :=
  let ds := l.takeWhile Char.isDigit
  if ds.isEmpty then none
  else
    match l.drop ds.length with
    | '.' :: r2 =>
      let fs := r2.takeWhile Char.isDigit
      if fs.isEmpty then none
      else
        match r2.drop fs.length with
        | 'h' :: rest =>
          match rest with
          | [] => some (natFromDigits (ds ++ fs), fs.length)
          | c :: _ => if isWordChar c then none else some (natFromDigits (ds ++ fs), fs.length)
        | _ => none
    | 'h' :: rest =>
      match rest with
      | [] => some (natFromDigits ds, 0)
      | c :: _ => if isWordChar c then none else some (natFromDigits ds, 0)
    | _ => none

/-- Head-anchored attempt of `/(\d+)min/` (src/parser.ts:110). -/
def matchMinAt (l : List Char) : Option Nat :=
  let ds := l.takeWhile Char.isDigit
  if ds.isEmpty then none
  else
    match l.drop ds.length with
    | 'm' :: 'i' :: 'n' :: _ => some (natFromDigits ds)
    | _ => none

/-- `Math.round(parseFloat(hourMatch[1]) * 60)` (src/parser.ts:112) computed
exactly over the rational the digit string denotes: with `d` the concatenated
digits and `k` the count of fractional digits, the value is
`⌊60·d/10^k + 1/2⌋`. -/
def hourTokenMinutes (dk : Nat × Nat) : Int :=
  (((120 * dk.1 + 10 ^ dk.2) / (2 * 10 ^ dk.2) : Nat) : Int)

/-- `\d+(\.\d+)?h$`: the tail of the hour alternative inside the subtask
capture of src/parser.ts:117, anchored to the end of the line. -/
def hourTailCore (r2 : List Char) : Bool :=
  let ds := r2.takeWhile Char.isDigit
  if ds.isEmpty then false
  else
    match r2.drop ds.length with
    | ['h'] => true
    | '.' :: r3 =>
      let fs := r3.takeWhile Char.isDigit
      !fs.isEmpty && r3.drop fs.length = ['h']
    | _ => false

/-- `\s+\d+(\.\d+)?h$` (first alternative of the optional trailing duration
token in src/parser.ts:117). -/
def isHourTail (r : List Char) : Bool :=
  match r with
  | c :: rest => isWs c && hourTailCore (rest.dropWhile isWs)
  | [] => false

/-- `\d+min$`: the tail of the minute alternative of src/parser.ts:117. -/
def minTailCore (r2 : List Char) : Bool :=
  let ds := r2.takeWhile Char.isDigit
  !ds.isEmpty && r2.drop ds.length = ['m', 'i', 'n']

/-- `\s+\d+min$` (second alternative of the optional trailing duration token
in src/parser.ts:117). -/
def isMinTail (r : List Char) : Bool :=
  match r with
  | c :: rest => isWs c && minTailCore (rest.dropWhile isWs)
  | [] => false

/-- The lazy capture `(.+?)` of src/parser.ts:117: the shortest non-empty
prefix after which the line either ends or ends in one trailing duration
token. -/
def lazySubTask (acc : List Char) : List Char → Option (List Char)
  | [] => none
  | c :: rs =>
    let acc2 := acc ++ [c]
    if rs.isEmpty || isHourTail rs || isMinTail rs then some acc2
    else lazySubTask acc2 rs

/-- Head-anchored attempt of
`/\]\]\s*\/\s*(.+?)(?:\s+\d+(?:\.\d+)?h|\s+\d+min)?$/` (src/parser.ts:117),
returning the trimmed subtask capture. When everything after the slash is
whitespace the capture backtracks into the whitespace and trims to empty. -/
def matchPlanNoteAt (l : List Char) : Option (List Char) :=
  match l with
  | ']' :: ']' :: rest =>
    match rest.dropWhile isWs with
    | '/' :: tail =>
      if tail.isEmpty then none
      else
        match tail.dropWhile isWs with
        | [] => some []
        | s2 => (lazySubTask [] s2).map trimChars
    | _ => none
  | _ => none

/-- `line.trim().replace(/^-\s*/, "")` (src/parser.ts:98). -/
def stripListMarker (l : List Char) : List Char :=
  match l with
  | '-' :: rest => rest.dropWhile isWs
  | _ => l

/-- The cancelled-line test of src/parser.ts:98-101: the trimmed content
after the list marker starts with `~~`. -/
def planCancelled (line : List Char) : Bool :=
  match stripListMarker (trimChars line) with
  | '~' :: '~' :: _ => true
  | _ => false

/-- `parsePlanLine` (src/parser.ts:96-125). -/
def parsePlanLine (line : String) : Option PlanEntry :=
  if planCancelled line.data then none
  else
    match scanFirst matchWikiAt line.data with
    | none => none
    | some nm =>
      let plannedMinutes : Int :=
        match scanFirst matchHourAt line.data with
        | some dk => hourTokenMinutes dk
        | none =>
          match scanFirst matchMinAt line.data with
          | some v => (v : Int)
          | none => 0
      let subTask : String :=
        match scanFirst matchPlanNoteAt line.data with
        | some n => String.mk n
        | none => ""
      some { taskName := String.mk nm, subTask := subTask, plannedMinutes := plannedMinutes }

/-! ## Section extractor (src/parser.ts) -/

/-- The trimmed line starts with the list marker `-` (src/parser.ts:21,81). -/
def isDashLine (l : List Char) : Bool :=
  match trimChars l with
  | '-' :: _ => true
  | _ => false

/-- The line loop of `parseLogEntries` (src/parser.ts:13-27): a line whose
trim equals the section header enters (or re-asserts) the section and is
skipped; afterwards a line starting with `##` terminates the scan; in the
section every trimmed-dash line is passed to `parseLogLine`. -/
def logLinesLoop (header : List Char) (date : String) :
    List (List Char) → Bool → List WorkLogEntry
  | [], _ => []
  | l :: ls, inSec =>
    if trimChars l = header then logLinesLoop header date ls true
    else if inSec && "##".data.isPrefixOf l then []
    else if inSec && isDashLine l then
      match parseLogLine (String.mk l) date with
      | some e => e :: logLinesLoop header date ls inSec
      | none => logLinesLoop header date ls inSec
    else logLinesLoop header date ls inSec

/-- `parseLogEntries` (src/parser.ts:7-30). -/
def parseLogEntries (content : String) (date : String) (settings : PluginSettings) :
    List WorkLogEntry :=
  logLinesLoop ("## " ++ settings.logSectionName).data date
    (splitOnChar '\n' content.data) false

/-- The line loop of `parsePlanEntries` (src/parser.ts:73-87); the only
difference from the log loop is the nested-header-tolerant terminator
`startsWith "## " && !startsWith "### "`. -/
def planLinesLoop (header : List Char) :
    List (List Char) → Bool → List PlanEntry
  | [], _ => []
  | l :: ls, inSec =>
    if trimChars l = header then planLinesLoop header ls true
    else if inSec && ("## ".data.isPrefixOf l && !"### ".data.isPrefixOf l) then []
    else if inSec && isDashLine l then
      match parsePlanLine (String.mk l) with
      | some e => e :: planLinesLoop header ls inSec
      | none => planLinesLoop header ls inSec
    else planLinesLoop header ls inSec

/-- `parsePlanEntries` (src/parser.ts:67-90). -/
def parsePlanEntries (content : String) (settings : PluginSettings) : List PlanEntry :=
  planLinesLoop ("## " ++ settings.planSectionName).data
    (splitOnChar '\n' content.data) false

/-! ## Schedule predictor (statusbar `calculateSchedule`, unnamed part_003
lines 955-1009 — the revision whose logged total is restricted to planned
task names, matching the shipped behaviour described by the spec). -/

/-- Stable descending insertion by end time: the embedding of
`[...logEntries].sort((a, b) => b.endTime.localeCompare(a.endTime))`
(part_003:986). -/
def insertByEndTimeDesc (e : WorkLogEntry) :
    List WorkLogEntry → List WorkLogEntry
  | [] => [e]
  | x :: xs =>
    if lexLe x.endTime.data e.endTime.data then e :: x :: xs
    else x :: insertByEndTimeDesc e xs

/-- The sorted copy of the log entries, descending by end time. -/
def sortByEndTimeDesc (l : List WorkLogEntry) : List WorkLogEntry :=
  l.foldr insertByEndTimeDesc []

/-- The inline predicted-end formatting of part_003:995-997 and 1003-1005:
`endH = Math.floor(endMinutes / 60) % 24`, `endM = endMinutes % 60`, both
zero-padded to two places. -/
def predictedEndText (endMinutes : Int) : String :=
  pad2 (toString ((Int.fdiv endMinutes 60).tmod 24)) ++ ":"
    ++ pad2 (toString (Int.tmod endMinutes 60))

/-- `calculateSchedule` (part_003:955-1009). `today` is the formatted current
date (only threaded into the log entries' date field) and `nowMinutes` is the
current clock time in minutes, used when no session has been logged yet. The
unreachable `NaN` rendering of a non-numeric stored end time is kept. -/
def calculateSchedule (content : String) (settings : PluginSettings)
    (today : String) (nowMinutes : Int) : String :=
  let planEntries := parsePlanEntries content settings
  let logEntries := parseLogEntries content today settings
  let totalPlannedMinutes : Int :=
    (planEntries.map PlanEntry.plannedMinutes).foldl (· + ·) 0
  if totalPlannedMinutes = 0 then "📝 予定未設定"
  else
    let plannedTaskNames := planEntries.map PlanEntry.taskName
    let matchedLoggedMinutes : Int :=
      ((logEntries.filter fun e => plannedTaskNames.contains e.taskName).map
        WorkLogEntry.durationMinutes).foldl (· + ·) 0
    let remainingMinutes := totalPlannedMinutes - matchedLoggedMinutes
    if remainingMinutes ≤ 0 then
      "✅ 予定完了 (+" ++ formatDuration (remainingMinutes.natAbs : Int) ++ ")"
    else
      let predictedEndTime : String :=
        match sortByEndTimeDesc logEntries with
        | [] => predictedEndText (nowMinutes + remainingMinutes)
        | e :: _ =>
          match parseTimeToMinutes e.endTime with
          | some em => predictedEndText (em + remainingMinutes)
          | none => "NaN:NaN"
      "⏰ 予定終了: " ++ predictedEndTime ++ " (残り: "
        ++ formatDuration remainingMinutes ++ ")"

/-! ## Commands (src/commands.ts and the plugin entry point) -/

/-- The identifying fields of an Obsidian `TFile` used by `startWork`. -/
structure TaskFileInfo where
  basename : String
  path : String
  deriving Repr, DecidableEq

/-- `startWork` (src/commands.ts:287-313): always builds a fresh session for
the chosen task, and reports a warning exactly when a session was already
active. `now` is the already-rounded start instant
(`roundTime(new Date(), settings.timeRoundingMinutes)`). -/
def startWork (taskFile : TaskFileInfo) (activeWork : Option ActiveWork)
    (now : Int) : ActiveWork × Bool :=
  (⟨taskFile.basename, taskFile.path, now⟩, activeWork.isSome)

/-- The state update of `handleStartWork` (unnamed part_000:99-113): the
plugin stores the fresh session only when `startWork` reported no warning. -/
def handleStartWork (state : Option ActiveWork) (taskFile : TaskFileInfo)
    (now : Int) : Option ActiveWork × Bool :=
  let r := startWork taskFile state now
  (if r.2 then state else some r.1, r.2)

/-- Index of the first occurrence of `needle` in `hay`
(`String.prototype.indexOf`, with `none` for `-1`). -/
def findSub (needle : List Char) : List Char → Option Nat
  | [] => if needle.isEmpty then some 0 else none
  | c :: rest =>
    if needle.isPrefixOf (c :: rest) then some 0
    else (findSub needle rest).map (· + 1)

/-- `content.indexOf(needle, start)`. -/
def findSubFrom (needle hay : List Char) (start : Nat) : Option Nat :=
  (findSub needle (hay.drop start)).map (· + start)

/-- The four-way branch of src/commands.ts:376-385 choosing the insertion
boundary: the earlier of `indexOf("\n##", afterHeader)` and
`indexOf("\n---", afterHeader)`, or the end of the document when both are
missing. -/
def sectionBoundaryIdx (content : List Char) (afterHeader : Nat) : Nat :=
  match findSubFrom "\n##".data content afterHeader,
      findSubFrom "\n---".data content afterHeader with
  | none, none => content.length
  | none, some j => j
  | some i, none => i
  | some i, some j => min i j

/-- The append-log-line step of `endWork` (src/commands.ts:362-400): locate
the log section header by substring search, append a new section at the end
of the document when it is absent, and otherwise insert the log line before
the section boundary after trimming the trailing whitespace of the section
body. The source writes `trimmed.length > 0 ? "\n" : "\n"` — both branches
are a single newline. -/
def appendLogLine (content : List Char) (logSectionHeader : List Char)
    (logLine : List Char) : List Char :=
  match findSub logSectionHeader content with
  | none =>
    content ++ "\n\n".data ++ logSectionHeader ++ "\n\n".data ++ logLine ++ "\n".data
  | some idx =>
    let afterHeader := idx + logSectionHeader.length
    let insertIndex := sectionBoundaryIdx content afterHeader
    let trimmed := trimRightChars ((content.drop afterHeader).take (insertIndex - afterHeader))
    content.take afterHeader ++ trimmed
      ++ (if 0 < trimmed.length then "\n".data else "\n".data)
      ++ logLine ++ "\n".data ++ content.drop insertIndex

/-! ## Aggregator (src/sidebar-view.ts) -/

/-- `Set.add` on the insertion-order list model of a JavaScript `Set`. -/
def addWorkDay (days : List String) (d : String) : List String :=
  if d ∈ days then days else days ++ [d]

/-- The in-place update of an existing summary
(src/sidebar-view.ts:365-368). -/
def updateSummary (s : TaskSummary) (e : WorkLogEntry) : TaskSummary :=
  { s with totalMinutes := s.totalMinutes + e.durationMinutes
           sessionCount := s.sessionCount + 1
           workDays := addWorkDay s.workDays e.date }

/-- One step of the grouping loop of `buildTaskSummaryMap`
(src/sidebar-view.ts:363-377) on the insertion-ordered association list
model of the JavaScript `Map`. -/
def insertEntry : List (String × TaskSummary) → WorkLogEntry →
    List (String × TaskSummary)
  | [], e => [(e.taskName, ⟨e.taskName, e.durationMinutes, 1, [e.date]⟩)]
  | (k, s) :: rest, e =>
    if k = e.taskName then (k, updateSummary s e) :: rest
    else (k, s) :: insertEntry rest e

/-- Stable descending insertion by total minutes: the embedding of
`.sort((a, b) => b[1].totalMinutes - a[1].totalMinutes)`
(src/sidebar-view.ts:380-382). -/
def insertByTotalDesc (x : String × TaskSummary) :
    List (String × TaskSummary) → List (String × TaskSummary)
  | [] => [x]
  | y :: ys =>
    if y.2.totalMinutes ≤ x.2.totalMinutes then x :: y :: ys
    else y :: insertByTotalDesc x ys

/-- The stable descending sort of the grouped entries. -/
def sortByTotalDesc (l : List (String × TaskSummary)) :
    List (String × TaskSummary) :=
  l.foldr insertByTotalDesc []

/-- `buildTaskSummaryMap` (src/sidebar-view.ts:360-383). -/
def buildTaskSummaryMap (entries : List WorkLogEntry) :
    List (String × TaskSummary) :=
  sortByTotalDesc (entries.foldl insertEntry [])

/-! ## Claim-side formulations

The definitions in this section are not translations of the source; they
spell out wordings of the specification so that the theorems below can
compare the source behaviour against them. Each is marked as such. -/

/-- Settings with the default section names and lunch window, used by the
concrete documents in the theorems below. -/
def testSettings : PluginSettings :=
  { tasksFolder := "5-tasks", dailyFolder := "2-daily", planSectionName := "PLAN",
    logSectionName := "LOG", dailyNoteFormat := "YYYY-MM-DD", timeRoundingMinutes := 5,
    showStatusBar := true, autoShowHistory := true, lunchStartTime := "12:00",
    lunchEndTime := "13:00", defaultTaskFrontmatter := "" }

/-- Modelled from the spec's words: the `"HH:MM"` format — two digits, a
colon, two digits. Used to compare `parseTimeToMinutes` against its claimed
fail-on-mismatch contract. -/
def isHHMMForm (s : String) : Bool :=
  match s.data with
  | [a, b, k, c, d] => a.isDigit && b.isDigit && k = ':' && c.isDigit && d.isDigit
  | _ => false

/-- Index of the first line whose trimmed text equals the section header. -/
def findHeaderIdx (header : List Char) : List (List Char) → Option Nat
  | [] => none
  | l :: ls =>
    if trimChars l = header then some 0
    else (findHeaderIdx header ls).map (· + 1)

/-- The body of a section: the lines after the first header-matching line,
up to (excluding) the first following line that satisfies `breakLine` and is
not itself a header-matching line. This is the claim-side formulation of
section extraction that the loop embeddings are proved equal to. -/
def sectionLines (header : List Char) (breakLine : List Char → Bool)
    (lines : List (List Char)) : List (List Char) :=
  match findHeaderIdx header lines with
  | none => []
  | some i =>
    (lines.drop (i + 1)).takeWhile fun l =>
      if trimChars l = header then true else !breakLine l

/-- Claim-side formulation of `parseLogEntries`: dash-lines of the log
section body, run through `parseLogLine`. -/
def logSectionEntries (content : String) (date : String)
    (settings : PluginSettings) : List WorkLogEntry :=
  (sectionLines ("## " ++ settings.logSectionName).data
      (fun l => "##".data.isPrefixOf l)
      (splitOnChar '\n' content.data)).filterMap
    fun l => if isDashLine l then parseLogLine (String.mk l) date else none

/-- Claim-side formulation of `parsePlanEntries` with the
nested-header-tolerant terminator. -/
def planSectionEntries (content : String) (settings : PluginSettings) :
    List PlanEntry :=
  (sectionLines ("## " ++ settings.planSectionName).data
      (fun l => "## ".data.isPrefixOf l && !"### ".data.isPrefixOf l)
      (splitOnChar '\n' content.data)).filterMap
    fun l => if isDashLine l then parsePlanLine (String.mk l) else none

/-- Join lines with newline separators (inverse of `splitOnChar '\n'`). -/
def joinLines : List (List Char) → List Char
  | [] => []
  | [l] => l
  | l :: ls => l ++ '\n' :: joinLines ls

/-- Modelled from the claim's words for C6: remove trailing *blank lines*
(lines consisting only of whitespace) from a section body, leaving any
trailing spaces of the last content line in place. -/
def dropTrailingBlankLines (body : List Char) : List Char :=
  joinLines ((splitOnChar '\n' body).reverse.dropWhile (fun l => l.all isWs)).reverse

/-- Modelled from the claim's words for C6: the insertion step with
"trimming trailing blank lines" in place of the source's `trimEnd`. -/
def specAppendLogLine (content : List Char) (logSectionHeader : List Char)
    (logLine : List Char) : List Char :=
  match findSub logSectionHeader content with
  | none =>
    content ++ "\n\n".data ++ logSectionHeader ++ "\n\n".data ++ logLine ++ "\n".data
  | some idx =>
    let afterHeader := idx + logSectionHeader.length
    let insertIndex := sectionBoundaryIdx content afterHeader
    let trimmed := dropTrailingBlankLines ((content.drop afterHeader).take (insertIndex - afterHeader))
    content.take afterHeader ++ trimmed ++ "\n".data
      ++ logLine ++ "\n".data ++ content.drop insertIndex

/-! ## General lemmas -/

lemma digit_ne_colon {c : Char} (h : c.isDigit = true) : c ≠ ':' :=
  fun hh => absurd (hh ▸ h) (by decide)

lemma digit_not_ws {c : Char} (h : c.isDigit = true) : isWs c = false := by
  have h1 : c ≠ ' ' := fun hh => absurd (hh ▸ h) (by decide)
  have h2 : c ≠ '\t' := fun hh => absurd (hh ▸ h) (by decide)
  have h3 : c ≠ '\r' := fun hh => absurd (hh ▸ h) (by decide)
  have h4 : c ≠ '\n' := fun hh => absurd (hh ▸ h) (by decide)
  simp [isWs, Char.isWhitespace, h1, h2, h3, h4]

lemma trimChars_eq_self {l : List Char} (h : ∀ c ∈ l, isWs c = false) :
    trimChars l = l := by
  have h1 : l.dropWhile isWs = l := by
    cases l with
    | nil => rfl
    | cons c t => simp [List.dropWhile_cons, h c (by simp)]
  have h2 : l.reverse.dropWhile isWs = l.reverse := by
    cases hr : l.reverse with
    | nil => rfl
    | cons c t =>
      have hc : c ∈ l := by
        rw [← List.mem_reverse, hr]; simp
      simp [List.dropWhile_cons, h c hc]
  unfold trimChars trimRightChars
  rw [h1, h2, List.reverse_reverse]

lemma splitOnChar_hhmm (a b c d : Char) (ha : a ≠ ':') (hb : b ≠ ':')
    (hc : c ≠ ':') (hd : d ≠ ':') :
    splitOnChar ':' [a, b, ':', c, d] = [[a, b], [c, d]] := by
  simp [splitOnChar, ha, hb, hc, hd]

lemma natFromDigits_pair (a b : Char) :
    natFromDigits [a, b] = 10 * dVal a + dVal b := by
  simp [natFromDigits, List.foldl]

lemma jsNumber_digits {l : List Char} (h : l.all Char.isDigit = true)
    (hne : l ≠ []) : jsNumber l = some (natFromDigits l) := by
  have ht : trimChars l = l := by
    refine trimChars_eq_self fun c hc => digit_not_ws ?_
    exact List.all_eq_true.mp h c hc
  have hemp : l.isEmpty = false := by
    cases l with
    | nil => exact absurd rfl hne
    | cons c t => rfl
  simp [jsNumber, ht, hemp, h]

lemma parseTimeToMinutes_digits (a b c d : Char) (ha : a.isDigit = true)
    (hb : b.isDigit = true) (hc : c.isDigit = true) (hd : d.isDigit = true) :
    parseTimeToMinutes (String.mk [a, b, ':', c, d]) =
      some (((10 * dVal a + dVal b : Nat) : Int) * 60 + ((10 * dVal c + dVal d : Nat) : Int)) := by
  have hsplit : splitOnChar ':' [a, b, ':', c, d] = [[a, b], [c, d]] :=
    splitOnChar_hhmm a b c d (digit_ne_colon ha) (digit_ne_colon hb)
      (digit_ne_colon hc) (digit_ne_colon hd)
  have hab : jsNumber [a, b] = some (natFromDigits [a, b]) :=
    jsNumber_digits (by simp [ha, hb]) (by simp)
  have hcd : jsNumber [c, d] = some (natFromDigits [c, d]) :=
    jsNumber_digits (by simp [hc, hd]) (by simp)
  unfold parseTimeToMinutes
  show (match (splitOnChar ':' [a, b, ':', c, d]).map jsNumber with
    | some h :: some m :: _ => some (h * 60 + m)
    | _ :: _ :: _ => none
    | [_] => none
    | [] => none) = _
  rw [hsplit]
  simp [hab, hcd, natFromDigits_pair]

lemma scanFirst_some {α : Type} (f : List Char → Option α) :
    ∀ (l : List Char) (r : α), scanFirst f l = some r → ∃ t, f t = some r := by
  intro l
  induction l with
  | nil => exact fun r h => ⟨[], h⟩
  | cons c rest ih =>
    intro r h
    unfold scanFirst at h
    cases hf : f (c :: rest) with
    | some x => rw [hf] at h; exact ⟨c :: rest, hf ▸ h⟩
    | none => rw [hf] at h; exact ih r h

/-! ## Claim C2 -/

/-- C2 counterexample: starting inside the lunch window with 60 minutes
remaining resumes at the lunch end (13:00 = 780) and finishes 60 minutes
later, at 840 — not at 780 as the claim's second example states. -/
theorem adjustForLunchBreak_inside_lunch_counterexample :
    adjustForLunchBreak 730 60 "12:00" "13:00" = some 840 ∧ (840 : Int) ≠ 780 := by
  decide

/-- C2 (amended): for a well-formed lunch window, `adjustForLunchBreak`
returns the start plus remaining when the window is degenerate, the lunch
end plus remaining when the start lies inside the half-open window, the
naive end plus the lunch duration when the interval crosses the lunch
start, and the naive end otherwise; in particular
`adjustForLunchBreak 700 120 "12:00" "13:00" = 880` and
`adjustForLunchBreak 730 60 "12:00" "13:00" = 840`. -/
theorem adjustForLunchBreak_branches :
    (∀ (startMinutes remainingMinutes lunchStart lunchEnd : Int) (s e : String),
      0 ≤ startMinutes → 0 ≤ remainingMinutes →
      parseTimeToMinutes s = some lunchStart →
      parseTimeToMinutes e = some lunchEnd →
      adjustForLunchBreak startMinutes remainingMinutes s e =
        some (if lunchEnd - lunchStart ≤ 0 then startMinutes + remainingMinutes
          else if lunchStart ≤ startMinutes ∧ startMinutes < lunchEnd then
            lunchEnd + remainingMinutes
          else if startMinutes < lunchStart ∧ lunchStart < startMinutes + remainingMinutes then
            startMinutes + remainingMinutes + (lunchEnd - lunchStart)
          else startMinutes + remainingMinutes)) ∧
    adjustForLunchBreak 700 120 "12:00" "13:00" = some 880 ∧
    adjustForLunchBreak 730 60 "12:00" "13:00" = some 840 := by
  refine ⟨?_, by decide, by decide⟩
  intro sm rm ls le s e _ _ hs he
  unfold adjustForLunchBreak
  rw [hs, he]
  dsimp only
  split_ifs <;> rfl

/-- C2 witness: the branch description applied at the spec's first example. -/
theorem adjustForLunchBreak_branches_witness :
    (0 : Int) ≤ 700 ∧ parseTimeToMinutes "12:00" = some 720 ∧
    adjustForLunchBreak 700 120 "12:00" "13:00" =
      some (if (780 : Int) - 720 ≤ 0 then 700 + 120
        else if (720 : Int) ≤ 700 ∧ (700 : Int) < 780 then 780 + 120
        else if (700 : Int) < 720 ∧ (720 : Int) < 700 + 120 then 700 + 120 + (780 - 720)
        else 700 + 120) :=
  ⟨by decide, by decide,
    adjustForLunchBreak_branches.1 700 120 720 780 "12:00" "13:00"
      (by decide) (by decide) (by decide) (by decide)⟩

/-! ## Claim C8 -/

/-- C8: starting work while a session is active leaves the stored
`ActiveWork` unchanged and reports the warning. -/
theorem startWork_no_overwrite :
    ∀ (w : ActiveWork) (taskFile : TaskFileInfo) (now : Int),
      handleStartWork (some w) taskFile now = (some w, true) :=
  fun _ _ _ => rfl

/-! ## Claim C9 -/

/-- C9 counterexample: `"1:2:3"` does not match the `"HH:MM"` format, yet
`parseTimeToMinutes` returns the number 62 instead of failing. -/
theorem parseTimeToMinutes_no_failure_counterexample :
    isHHMMForm "1:2:3" = false ∧ parseTimeToMinutes "1:2:3" = some 62 := by
  decide

/-- C9 (amended): on `"HH:MM"` input `parseTimeToMinutes` returns
hours·60+minutes; on non-matching input it does not fail — it still returns
a JavaScript number (possibly `NaN`), e.g. 62 for `"1:2:3"`. -/
theorem parseTimeToMinutes_hhmm :
    (∀ a b c d : Char, a.isDigit = true → b.isDigit = true →
      c.isDigit = true → d.isDigit = true →
      parseTimeToMinutes (String.mk [a, b, ':', c, d]) =
        some (((10 * dVal a + dVal b : Nat) : Int) * 60 + ((10 * dVal c + dVal d : Nat) : Int))) ∧
    parseTimeToMinutes "1:2:3" = some 62 :=
  ⟨fun a b c d ha hb hc hd => parseTimeToMinutes_digits a b c d ha hb hc hd, by decide⟩

/-- C9 witness: the `"HH:MM"` case applied at `"09:30"`. -/
theorem parseTimeToMinutes_hhmm_witness :
    parseTimeToMinutes (String.mk ['0', '9', ':', '3', '0']) =
      some (((10 * dVal '0' + dVal '9' : Nat) : Int) * 60 + ((10 * dVal '3' + dVal '0' : Nat) : Int)) :=
  parseTimeToMinutes_hhmm.1 '0' '9' '3' '0' (by decide) (by decide) (by decide) (by decide)

/-! ## Claim C5 -/

/-- C5: a cancelled plan line yields no entry; an uncancelled plan line with
a wikilink yields an entry whose planned minutes come from the hour literal
(rounded hours·60), else the minute literal, else 0. -/
theorem parsePlanLine_minutes :
    (∀ line : String, planCancelled line.data = true → parsePlanLine line = none) ∧
    (∀ (line : String) (nm : List Char), planCancelled line.data = false →
      scanFirst matchWikiAt line.data = some nm →
      ∃ e, parsePlanLine line = some e ∧ e.taskName = String.mk nm ∧
        e.plannedMinutes =
          (match scanFirst matchHourAt line.data with
           | some dk => hourTokenMinutes dk
           | none =>
             match scanFirst matchMinAt line.data with
             | some v => (v : Int)
             | none => 0)) := by
  constructor
  · intro line h
    unfold parsePlanLine
    simp [h]
  · intro line nm hcan hwiki
    unfold parsePlanLine
    simp only [hcan, Bool.false_eq_true, if_false, hwiki]
    exact ⟨_, rfl, rfl, rfl⟩

/-- C5 witness: a cancelled line and a minute-literal line. -/
theorem parsePlanLine_minutes_witness :
    planCancelled (String.data "- ~~[[A]] 1h~~") = true ∧
    parsePlanLine "- ~~[[A]] 1h~~" = none ∧
    (∃ e, parsePlanLine "- [[A]] 30min" = some e ∧ e.taskName = String.mk ['A'] ∧
      e.plannedMinutes =
        (match scanFirst matchHourAt (String.data "- [[A]] 30min") with
         | some dk => hourTokenMinutes dk
         | none =>
           match scanFirst matchMinAt (String.data "- [[A]] 30min") with
           | some v => (v : Int)
           | none => 0)) :=
  ⟨by decide, parsePlanLine_minutes.1 _ (by decide),
    parsePlanLine_minutes.2 "- [[A]] 30min" ['A'] (by decide) (by decide)⟩

/-! ## Claim C10 -/

/-- C10: when a plan line carries both an hour literal and a minute literal,
the planned minutes come exclusively from the hour literal. -/
theorem parsePlanLine_hour_precedence :
    ∀ (line : String) (dk : Nat × Nat) (v : Nat) (nm : List Char),
      planCancelled line.data = false →
      scanFirst matchWikiAt line.data = some nm →
      scanFirst matchHourAt line.data = some dk →
      scanFirst matchMinAt line.data = some v →
      ∃ e, parsePlanLine line = some e ∧ e.plannedMinutes = hourTokenMinutes dk := by
  intro line dk v nm hcan hwiki hhour _
  unfold parsePlanLine
  simp only [hcan, Bool.false_eq_true, if_false, hwiki, hhour]
  exact ⟨_, rfl, rfl⟩

/-- C10 witness: `2h` wins over `30min` on the same line. -/
theorem parsePlanLine_hour_precedence_witness :
    ∃ e, parsePlanLine "- [[A]] 2h 30min" = some e ∧
      e.plannedMinutes = hourTokenMinutes (2, 0) :=
  parsePlanLine_hour_precedence "- [[A]] 2h 30min" (2, 0) 30 ['A']
    (by decide) (by decide) (by decide) (by decide)

/-! ## Claim C3 -/

/-- C3: every entry `parseLogLine` returns has a non-negative duration equal
to `max 0 (end − start)` of the parsed time range (the entry's own start and
end time strings parse back to those minute values). -/
theorem parseLogLine_duration_clamped :
    ∀ (line date : String) (e : WorkLogEntry), parseLogLine line date = some e →
      0 ≤ e.durationMinutes ∧
      ∃ sm em, parseTimeToMinutes e.startTime = some sm ∧
        parseTimeToMinutes e.endTime = some em ∧
        e.durationMinutes = max 0 (em - sm) := by
  intro line date e h
  unfold parseLogLine at h
  cases hT : scanFirst matchTimeAt line.data with
  | none => rw [hT] at h; exact absurd h (by simp)
  | some t =>
    cases hW : scanFirst matchWikiAt line.data with
    | none =>
      rw [hT, hW] at h
      obtain ⟨a, b, c, d, p, q, r, s⟩ := t
      exact absurd h (by simp)
    | some nm =>
      rw [hT, hW] at h
      obtain ⟨a, b, c, d, p, q, r, s⟩ := t
      obtain ⟨tt, htt⟩ := scanFirst_some matchTimeAt line.data _ hT
      have hdig : a.isDigit = true ∧ b.isDigit = true ∧ c.isDigit = true ∧
          d.isDigit = true ∧ p.isDigit = true ∧ q.isDigit = true ∧
          r.isDigit = true ∧ s.isDigit = true := by
        unfold matchTimeAt at htt
        split at htt
        all_goals try exact Option.noConfusion htt
        split at htt
        all_goals try exact Option.noConfusion htt
        rename_i cond
        simp only [Option.some.injEq, Prod.mk.injEq] at htt
        obtain ⟨h1, h2, h3, h4, h5, h6, h7, h8⟩ := htt
        subst h1; subst h2; subst h3; subst h4
        subst h5; subst h6; subst h7; subst h8
        simp only [Bool.and_eq_true, and_assoc] at cond
        obtain ⟨c1, c2, -, c4, c5, -, c7, c8, -, c10, c11⟩ := cond
        exact ⟨c1, c2, c4, c5, c7, c8, c10, c11⟩
      obtain ⟨ha, hb, hc, hd, hp, hq, hr, hs⟩ := hdig
      replace h := Option.some.inj h
      subst h
      refine ⟨le_max_left _ _,
        ((10 * dVal a + dVal b : Nat) : Int) * 60 + ((10 * dVal c + dVal d : Nat) : Int),
        ((10 * dVal p + dVal q : Nat) : Int) * 60 + ((10 * dVal r + dVal s : Nat) : Int),
        ?_, ?_, ?_⟩
      · exact parseTimeToMinutes_digits a b c d ha hb hc hd
      · exact parseTimeToMinutes_digits p q r s hp hq hr hs
      · dsimp only
        push_cast
        ring_nf

/-- C3 witness: a reversed range clamps to zero. -/
theorem parseLogLine_duration_clamped_witness :
    0 ≤ (0 : Int) ∧
    ∃ sm em, parseTimeToMinutes "10:00" = some sm ∧
      parseTimeToMinutes "09:00" = some em ∧ (0 : Int) = max 0 (em - sm) := by
  have h := parseLogLine_duration_clamped "- 10:00-09:00 [[A]]" "2024-01-01"
    ⟨"2024-01-01", "10:00", "09:00", "A", "", 0⟩ (by decide)
  exact h

/-! ## Claim C4 -/

lemma header_not_dash (name : String) :
    ∀ l : List Char, trimChars l = ("## " ++ name).data → isDashLine l = false := by
  intro l h
  unfold isDashLine
  rw [h]
  have hh : ("## " ++ name).data = '#' :: '#' :: ' ' :: name.data := by
    rw [String.data_append]
    rfl
  rw [hh]
  rfl

lemma logLinesLoop_inSection (header : List Char) (date : String)
    (hhd : ∀ l : List Char, trimChars l = header → isDashLine l = false) :
    ∀ ls, logLinesLoop header date ls true =
      (ls.takeWhile fun l =>
          if trimChars l = header then true else !"##".data.isPrefixOf l).filterMap
        fun l => if isDashLine l then parseLogLine (String.mk l) date else none := by
  intro ls
  induction ls with
  | nil => rfl
  | cons l ls ih =>
    by_cases h1 : trimChars l = header
    · simp only [logLinesLoop, List.takeWhile_cons, h1, if_pos rfl, if_true,
        List.filterMap_cons, hhd l h1, Bool.false_eq_true, if_false]
      exact ih
    · cases h2 : "##".data.isPrefixOf l with
      | true =>
        simp only [logLinesLoop, List.takeWhile_cons, h1, if_neg h1, h2,
          Bool.true_and, if_true, Bool.not_true, Bool.false_eq_true, if_false,
          List.filterMap_nil]
      | false =>
        cases h3 : isDashLine l with
        | true =>
          simp only [logLinesLoop, List.takeWhile_cons, h1, if_neg h1, h2, h3,
            Bool.true_and, Bool.false_eq_true, if_false, Bool.not_false, if_true,
            List.filterMap_cons]
          cases hp : parseLogLine (String.mk l) date with
          | some e => simp only [hp, ih]
          | none => simp only [hp, ih]
        | false =>
          simp only [logLinesLoop, List.takeWhile_cons, h1, if_neg h1, h2, h3,
            Bool.true_and, Bool.false_eq_true, if_false, Bool.not_false, if_true,
            List.filterMap_cons]
          exact ih

lemma logLinesLoop_preHeader (header : List Char) (date : String) :
    ∀ ls, logLinesLoop header date ls false =
      match findHeaderIdx header ls with
      | none => []
      | some i => logLinesLoop header date (ls.drop (i + 1)) true := by
  intro ls
  induction ls with
  | nil => rfl
  | cons l ls ih =>
    by_cases h1 : trimChars l = header
    · simp only [logLinesLoop, findHeaderIdx, h1, if_pos rfl, if_true, List.drop_succ_cons,
        List.drop_zero]
    · simp only [logLinesLoop, findHeaderIdx, h1, if_neg h1, Bool.false_and,
        Bool.false_eq_true, if_false]
      rw [ih]
      cases hf : findHeaderIdx header ls with
      | none => rfl
      | some i => simp

lemma planLinesLoop_inSection (header : List Char)
    (hhd : ∀ l : List Char, trimChars l = header → isDashLine l = false) :
    ∀ ls, planLinesLoop header ls true =
      (ls.takeWhile fun l =>
          if trimChars l = header then true
          else !("## ".data.isPrefixOf l && !"### ".data.isPrefixOf l)).filterMap
        fun l => if isDashLine l then parsePlanLine (String.mk l) else none := by
  intro ls
  induction ls with
  | nil => rfl
  | cons l ls ih =>
    by_cases h1 : trimChars l = header
    · simp only [planLinesLoop, List.takeWhile_cons, h1, if_pos rfl, if_true,
        List.filterMap_cons, hhd l h1, Bool.false_eq_true, if_false]
      exact ih
    · cases h2 : ("## ".data.isPrefixOf l && !"### ".data.isPrefixOf l) with
      | true =>
        simp only [planLinesLoop, List.takeWhile_cons, h1, if_neg h1, h2,
          Bool.true_and, if_true, Bool.not_true, Bool.false_eq_true, if_false,
          List.filterMap_nil]
      | false =>
        cases h3 : isDashLine l with
        | true =>
          simp only [planLinesLoop, List.takeWhile_cons, h1, if_neg h1, h2, h3,
            Bool.true_and, Bool.false_eq_true, if_false, Bool.not_false, if_true,
            List.filterMap_cons]
          cases hp : parsePlanLine (String.mk l) with
          | some e => simp only [hp, ih]
          | none => simp only [hp, ih]
        | false =>
          simp only [planLinesLoop, List.takeWhile_cons, h1, if_neg h1, h2, h3,
            Bool.true_and, Bool.false_eq_true, if_false, Bool.not_false, if_true,
            List.filterMap_cons]
          exact ih

lemma planLinesLoop_preHeader (header : List Char) :
    ∀ ls, planLinesLoop header ls false =
      match findHeaderIdx header ls with
      | none => []
      | some i => planLinesLoop header (ls.drop (i + 1)) true := by
  intro ls
  induction ls with
  | nil => rfl
  | cons l ls ih =>
    by_cases h1 : trimChars l = header
    · simp only [planLinesLoop, findHeaderIdx, h1, if_pos rfl, if_true, List.drop_succ_cons,
        List.drop_zero]
    · simp only [planLinesLoop, findHeaderIdx, h1, if_neg h1, Bool.false_and,
        Bool.false_eq_true, if_false]
      rw [ih]
      cases hf : findHeaderIdx header ls with
      | none => rfl
      | some i => simp

/-- C4 counterexample: in the document below, the third line `"  ## X"` has
trimmed text beginning with `##`, yet `parseLogEntries` still returns the
entry parsed from the fourth line, which lies after it — the loop tests
`line.startsWith("##")` on the untrimmed line. -/
theorem parseLogEntries_trimmed_header_counterexample :
    "##".data.isPrefixOf
        (trimChars ((splitOnChar '\n'
          (String.data "## LOG\n- 09:00-10:00 [[A]]\n  ## X\n- 10:00-11:00 [[B]]")).getD 2 [])) = true ∧
    (parseLogEntries "## LOG\n- 09:00-10:00 [[A]]\n  ## X\n- 10:00-11:00 [[B]]"
        "2024-01-01" testSettings).map WorkLogEntry.taskName = ["A", "B"] ∧
    parseLogLine (String.mk ((splitOnChar '\n'
        (String.data "## LOG\n- 09:00-10:00 [[A]]\n  ## X\n- 10:00-11:00 [[B]]")).getD 3 []))
        "2024-01-01" =
      some ⟨"2024-01-01", "10:00", "11:00", "B", "", 60⟩ := by
  decide

/-- C4 (amended): section extraction collects entries exactly from the
dash-lines strictly between the header line (first line whose trimmed text
equals `"## " + sectionName`) and the next following line that begins —
untrimmed — with `##` (for the nested-header-tolerant plan variant: with
`"## "` but not `"### "`) and is not itself a header-matching line; a
document whose log section contains two dash-lines followed by a `## メモ`
footer yields exactly those two entries. -/
theorem parseLogEntries_section_bounds :
    (∀ (content date : String) (settings : PluginSettings),
      parseLogEntries content date settings = logSectionEntries content date settings) ∧
    (∀ (content : String) (settings : PluginSettings),
      parsePlanEntries content settings = planSectionEntries content settings) ∧
    (parseLogEntries
        "# T\n## LOG\n- 09:00-10:00 [[A]]\n- 10:00-11:00 [[B]]\n## メモ\n- 11:00-12:00 [[C]]"
        "2024-01-01" testSettings =
      [⟨"2024-01-01", "09:00", "10:00", "A", "", 60⟩,
       ⟨"2024-01-01", "10:00", "11:00", "B", "", 60⟩]) := by
  refine ⟨?_, ?_, by decide⟩
  · intro content date settings
    unfold parseLogEntries logSectionEntries sectionLines
    rw [logLinesLoop_preHeader]
    cases hf : findHeaderIdx ("## " ++ settings.logSectionName).data
        (splitOnChar '\n' content.data) with
    | none => rfl
    | some i =>
      simp only []
      rw [logLinesLoop_inSection _ _ (header_not_dash settings.logSectionName)]
  · intro content settings
    unfold parsePlanEntries planSectionEntries sectionLines
    rw [planLinesLoop_preHeader]
    cases hf : findHeaderIdx ("## " ++ settings.planSectionName).data
        (splitOnChar '\n' content.data) with
    | none => rfl
    | some i =>
      simp only []
      rw [planLinesLoop_inSection _ (header_not_dash settings.planSectionName)]

/-! ## Claim C6 -/

lemma findSub_add_le (needle : List Char) :
    ∀ (hay : List Char) (i : Nat), findSub needle hay = some i →
      i + needle.length ≤ hay.length := by
  intro hay
  induction hay with
  | nil =>
    intro i h
    unfold findSub at h
    by_cases he : needle.isEmpty
    · rw [if_pos he] at h
      cases h
      simp [List.isEmpty_iff.mp he]
    · rw [if_neg he] at h
      exact Option.noConfusion h
  | cons c rest ih =>
    intro i h
    unfold findSub at h
    by_cases hp : needle.isPrefixOf (c :: rest)
    · rw [if_pos hp] at h
      cases h
      have := (List.isPrefixOf_iff_prefix.mp hp).length_le
      simpa using this
    · rw [if_neg hp] at h
      cases hj : findSub needle rest with
      | none => rw [hj] at h; exact Option.noConfusion h
      | some j =>
        rw [hj] at h
        cases h
        have := ih j hj
        simp only [List.length_cons]
        omega

lemma findSubFrom_le_length {needle hay : List Char} {start i : Nat}
    (hne : needle ≠ []) (h : findSubFrom needle hay start = some i) :
    i ≤ hay.length := by
  unfold findSubFrom at h
  cases hj : findSub needle (hay.drop start) with
  | none => rw [hj] at h; exact Option.noConfusion h
  | some j =>
    rw [hj] at h
    obtain rfl : j + start = i := by simpa using h
    have hlen := findSub_add_le needle (hay.drop start) j hj
    have hnl : 1 ≤ needle.length := by
      cases needle with
      | nil => exact absurd rfl hne
      | cons a t => simp
    have hd : (hay.drop start).length = hay.length - start := List.length_drop ..
    -- the needle fits inside the dropped suffix, so start ≤ hay.length
    omega

lemma sectionBoundaryIdx_eq_min (content : List Char) (ah : Nat) :
    sectionBoundaryIdx content ah =
      min ((findSubFrom "\n##".data content ah).getD content.length)
          ((findSubFrom "\n---".data content ah).getD content.length) := by
  unfold sectionBoundaryIdx
  cases h1 : findSubFrom "\n##".data content ah with
  | none =>
    cases h2 : findSubFrom "\n---".data content ah with
    | none => simp
    | some j =>
      have := findSubFrom_le_length (by decide) h2
      simp [Nat.min_eq_right this]
  | some i =>
    cases h2 : findSubFrom "\n---".data content ah with
    | none =>
      have := findSubFrom_le_length (by decide) h1
      simp [Nat.min_eq_left this]
    | some j => simp

/-- C6 counterexample: on a document whose last log line carries trailing
spaces, the code's `trimEnd` also removes those spaces, while the claimed
"trimming trailing blank lines" would keep them — the two results differ. -/
theorem appendLogLine_blank_trim_counterexample :
    appendLogLine ("# T\n\n## LOG\n- a  \n---\nrest").data ("## LOG").data ("- NEW").data ≠
      specAppendLogLine ("# T\n\n## LOG\n- a  \n---\nrest").data ("## LOG").data ("- NEW").data ∧
    String.mk (appendLogLine ("# T\n\n## LOG\n- a  \n---\nrest").data ("## LOG").data
        ("- NEW").data) = "# T\n\n## LOG\n- a\n- NEW\n\n---\nrest" ∧
    String.mk (specAppendLogLine ("# T\n\n## LOG\n- a  \n---\nrest").data ("## LOG").data
        ("- NEW").data) = "# T\n\n## LOG\n- a  \n- NEW\n\n---\nrest" := by
  decide

/-- C6 (amended): when the log section header occurs in the document, the
new log line is inserted at the end of the section body — the boundary being
the earlier of the next `"\n##"` and the next `"\n---"` occurrence after the
header (end of document when both are missing) — after trimming the trailing
*whitespace* of the existing body (which removes trailing blank lines and
also trailing spaces of the last body line); every character from the
boundary onward is preserved. On a document with an empty log section
followed by `---`, the line lands directly after the header with no
blank-line duplication. -/
theorem appendLogLine_insertion :
    (∀ (content header logLine : List Char) (idx : Nat),
      findSub header content = some idx →
      appendLogLine content header logLine =
        content.take (idx + header.length)
          ++ trimRightChars ((content.drop (idx + header.length)).take
               (min ((findSubFrom "\n##".data content (idx + header.length)).getD content.length)
                    ((findSubFrom "\n---".data content (idx + header.length)).getD content.length)
                 - (idx + header.length)))
          ++ '\n' :: logLine
          ++ '\n' :: content.drop
               (min ((findSubFrom "\n##".data content (idx + header.length)).getD content.length)
                    ((findSubFrom "\n---".data content (idx + header.length)).getD content.length))) ∧
    String.mk (appendLogLine ("## LOG\n\n\n---\nrest").data ("## LOG").data
        ("- 10:00-11:00 [[A]]").data) = "## LOG\n- 10:00-11:00 [[A]]\n\n---\nrest" := by
  refine ⟨?_, by decide⟩
  intro content header logLine idx h
  unfold appendLogLine
  rw [h]
  dsimp only
  rw [sectionBoundaryIdx_eq_min content (idx + header.length)]
  simp [List.append_assoc]

/-- C6 witness: the boundary description applied at the empty-section
document. -/
theorem appendLogLine_insertion_witness :
    appendLogLine ("## LOG\n\n\n---\nrest").data ("## LOG").data ("- NEW").data =
      ("## LOG\n\n\n---\nrest").data.take (0 + ("## LOG").data.length)
        ++ trimRightChars ((("## LOG\n\n\n---\nrest").data.drop (0 + ("## LOG").data.length)).take
             (min ((findSubFrom "\n##".data ("## LOG\n\n\n---\nrest").data
                      (0 + ("## LOG").data.length)).getD ("## LOG\n\n\n---\nrest").data.length)
                  ((findSubFrom "\n---".data ("## LOG\n\n\n---\nrest").data
                      (0 + ("## LOG").data.length)).getD ("## LOG\n\n\n---\nrest").data.length)
               - (0 + ("## LOG").data.length)))
        ++ '\n' :: ("- NEW").data
        ++ '\n' :: ("## LOG\n\n\n---\nrest").data.drop
             (min ((findSubFrom "\n##".data ("## LOG\n\n\n---\nrest").data
                      (0 + ("## LOG").data.length)).getD ("## LOG\n\n\n---\nrest").data.length)
                  ((findSubFrom "\n---".data ("## LOG\n\n\n---\nrest").data
                      (0 + ("## LOG").data.length)).getD ("## LOG\n\n\n---\nrest").data.length)) :=
  appendLogLine_insertion.1 ("## LOG\n\n\n---\nrest").data ("## LOG").data ("- NEW").data 0
    (by decide)

/-! ## Claim C7 -/

/-- The entries of one task, by exact name equality. -/
def filterTask (entries : List WorkLogEntry) (t : String) : List WorkLogEntry :=
  entries.filter fun e => decide (e.taskName = t)

/-- `p` is the correct aggregate of the entries of task `p.1`. -/
def summarizes (p : String × TaskSummary) (entries : List WorkLogEntry) : Prop :=
  p.2.taskName = p.1 ∧
  p.2.totalMinutes = ((filterTask entries p.1).map WorkLogEntry.durationMinutes).sum ∧
  p.2.sessionCount = (filterTask entries p.1).length ∧
  p.2.workDays.Nodup ∧
  ∀ d, d ∈ p.2.workDays ↔ d ∈ (filterTask entries p.1).map WorkLogEntry.date

lemma filterTask_append (l1 l2 : List WorkLogEntry) (t : String) :
    filterTask (l1 ++ l2) t = filterTask l1 t ++ filterTask l2 t := by
  simp [filterTask]

lemma filterTask_single_ne {e : WorkLogEntry} {t : String} (h : e.taskName ≠ t) :
    filterTask [e] t = [] := by
  simp [filterTask, h]

lemma filterTask_single_eq {e : WorkLogEntry} {t : String} (h : e.taskName = t) :
    filterTask [e] t = [e] := by
  simp [filterTask, h]

lemma addWorkDay_mem (days : List String) (d x : String) :
    x ∈ addWorkDay days d ↔ x ∈ days ∨ x = d := by
  unfold addWorkDay
  by_cases h : d ∈ days
  · simp only [h, if_true]
    constructor
    · exact Or.inl
    · rintro (hx | rfl)
      · exact hx
      · exact h
  · simp [h]

lemma addWorkDay_nodup {days : List String} (h : days.Nodup) (d : String) :
    (addWorkDay days d).Nodup := by
  unfold addWorkDay
  by_cases hd : d ∈ days
  · simpa [hd] using h
  · simp [hd, List.nodup_append, h]

lemma summarizes_append_ne {p : String × TaskSummary} {entries : List WorkLogEntry}
    {e : WorkLogEntry} (h : summarizes p entries) (hne : e.taskName ≠ p.1) :
    summarizes p (entries ++ [e]) := by
  obtain ⟨h1, h2, h3, h4, h5⟩ := h
  refine ⟨h1, ?_, ?_, h4, ?_⟩
  · simp [filterTask_append, filterTask_single_ne hne, h2]
  · simp [filterTask_append, filterTask_single_ne hne, h3]
  · simp [filterTask_append, filterTask_single_ne hne, h5]

lemma summarizes_append_eq {t : String} {s : TaskSummary} {entries : List WorkLogEntry}
    {e : WorkLogEntry} (h : summarizes (t, s) entries) (he : e.taskName = t) :
    summarizes (t, updateSummary s e) (entries ++ [e]) := by
  obtain ⟨h1, h2, h3, h4, h5⟩ := h
  dsimp only at h1 h2 h3 h4 h5
  refine ⟨h1, ?_, ?_, addWorkDay_nodup h4 e.date, ?_⟩
  · simp [filterTask_append, filterTask_single_eq he, updateSummary, h2]
  · simp [filterTask_append, filterTask_single_eq he, updateSummary, h3]
  · intro d
    simp only [updateSummary, addWorkDay_mem, h5 d, filterTask_append,
      filterTask_single_eq he, List.map_append, List.mem_append, List.map_cons,
      List.map_nil, List.mem_cons, List.not_mem_nil, or_false]

lemma insertEntry_of_not_mem :
    ∀ (m : List (String × TaskSummary)) (e : WorkLogEntry),
      e.taskName ∉ m.map Prod.fst →
      insertEntry m e = m ++ [(e.taskName, ⟨e.taskName, e.durationMinutes, 1, [e.date]⟩)] := by
  intro m
  induction m with
  | nil => intro e _; rfl
  | cons p rest ih =>
    intro e h
    obtain ⟨k, s⟩ := p
    have hk : ¬(k = e.taskName) := by
      intro hk
      exact h (by simp [hk])
    simp only [insertEntry, hk, if_false]
    rw [ih e (by intro hm; exact h (by simp [hm]))]
    simp

lemma insertEntry_of_mem :
    ∀ (m : List (String × TaskSummary)) (e : WorkLogEntry),
      (m.map Prod.fst).Nodup → e.taskName ∈ m.map Prod.fst →
      ∃ m1 s m2, m = m1 ++ (e.taskName, s) :: m2 ∧
        e.taskName ∉ m1.map Prod.fst ∧ e.taskName ∉ m2.map Prod.fst ∧
        insertEntry m e = m1 ++ (e.taskName, updateSummary s e) :: m2 := by
  intro m
  induction m with
  | nil => intro e _ h; exact absurd h (by simp)
  | cons p rest ih =>
    intro e hnd hmem
    obtain ⟨k, s⟩ := p
    rw [List.map_cons] at hnd hmem
    by_cases hk : k = e.taskName
    · subst hk
      refine ⟨[], s, rest, by simp, by simp, ?_, ?_⟩
      · exact (List.nodup_cons.mp hnd).1
      · simp [insertEntry]
    · have hmem2 : e.taskName ∈ rest.map Prod.fst := by
        rcases List.mem_cons.mp hmem with h | h
        · exact absurd h.symm hk
        · exact h
      obtain ⟨m1, s1, m2, heq, hm1, hm2, hins⟩ :=
        ih e (List.nodup_cons.mp hnd).2 hmem2
      refine ⟨(k, s) :: m1, s1, m2, by simp [heq], ?_, hm2, ?_⟩
      · simp only [List.map_cons, List.mem_cons]
        rintro (h | h)
        · exact hk h.symm
        · exact hm1 h
      · simp only [insertEntry, hk, if_false, hins, List.cons_append]

lemma insertEntry_step {m : List (String × TaskSummary)} {entries : List WorkLogEntry}
    (e : WorkLogEntry)
    (hnd : (m.map Prod.fst).Nodup)
    (hsum : ∀ p ∈ m, summarizes p entries)
    (hcov : ∀ x ∈ entries, x.taskName ∈ m.map Prod.fst) :
    ((insertEntry m e).map Prod.fst).Nodup ∧
    (∀ p ∈ insertEntry m e, summarizes p (entries ++ [e])) ∧
    (∀ x ∈ entries ++ [e], x.taskName ∈ (insertEntry m e).map Prod.fst) := by
  by_cases hmem : e.taskName ∈ m.map Prod.fst
  · obtain ⟨m1, s, m2, heq, hm1, hm2, hins⟩ := insertEntry_of_mem m e hnd hmem
    have hkeys : (insertEntry m e).map Prod.fst = m.map Prod.fst := by
      rw [hins, heq]; simp
    refine ⟨by rw [hkeys]; exact hnd, ?_, ?_⟩
    · intro p hp
      rw [hins] at hp
      rcases List.mem_append.mp hp with hp1 | hp1
      · have hpm : p ∈ m := by rw [heq]; exact List.mem_append.mpr (Or.inl hp1)
        refine summarizes_append_ne (hsum p hpm) ?_
        intro hne
        exact hm1 (hne ▸ List.mem_map_of_mem Prod.fst hp1)
      · rcases List.mem_cons.mp hp1 with hp2 | hp2
        · subst hp2
          have hsm : (e.taskName, s) ∈ m := by
            rw [heq]; exact List.mem_append.mpr (Or.inr (List.mem_cons_self _ _))
          exact summarizes_append_eq (hsum _ hsm) rfl
        · have hpm : p ∈ m := by
            rw [heq]
            exact List.mem_append.mpr (Or.inr (List.mem_cons_of_mem _ hp2))
          refine summarizes_append_ne (hsum p hpm) ?_
          intro hne
          exact hm2 (hne ▸ List.mem_map_of_mem Prod.fst hp2)
    · intro x hx
      rw [hkeys]
      rcases List.mem_append.mp hx with hx1 | hx1
      · exact hcov x hx1
      · rw [List.mem_singleton.mp hx1]
        exact hmem
  · rw [insertEntry_of_not_mem m e hmem]
    have hkeys : (m ++ [(e.taskName,
        (⟨e.taskName, e.durationMinutes, 1, [e.date]⟩ : TaskSummary))]).map
        Prod.fst = m.map Prod.fst ++ [e.taskName] := by simp
    refine ⟨?_, ?_, ?_⟩
    · rw [hkeys]
      simp [List.nodup_append, hnd, hmem]
    · intro p hp
      rcases List.mem_append.mp hp with hp1 | hp1
      · refine summarizes_append_ne (hsum p hp1) ?_
        intro hne
        exact hmem (hne ▸ List.mem_map_of_mem Prod.fst hp1)
      · rw [List.mem_singleton.mp hp1]
        have hfe : filterTask entries e.taskName = [] := by
          unfold filterTask
          rw [List.filter_eq_nil_iff]
          intro x hx
          simp only [decide_eq_true_eq]
          intro hxe
          exact hmem (hxe ▸ hcov x hx)
        refine ⟨rfl, ?_, ?_, by simp, ?_⟩
        · simp [filterTask_append, hfe, filterTask_single_eq rfl]
        · simp [filterTask_append, hfe, filterTask_single_eq rfl]
        · intro d
          simp [filterTask_append, hfe, filterTask_single_eq rfl]
    · intro x hx
      rw [hkeys]
      rcases List.mem_append.mp hx with hx1 | hx1
      · exact List.mem_append.mpr (Or.inl (hcov x hx1))
      · rw [List.mem_singleton.mp hx1]
        simp

lemma groupFold_inv (entries : List WorkLogEntry) :
    ((entries.foldl insertEntry []).map Prod.fst).Nodup ∧
    (∀ p ∈ entries.foldl insertEntry [], summarizes p entries) ∧
    (∀ x ∈ entries, x.taskName ∈ (entries.foldl insertEntry []).map Prod.fst) := by
  induction entries using List.reverseRecOn with
  | nil => exact ⟨by simp, by simp, by simp⟩
  | append_singleton l e ih =>
    obtain ⟨hnd, hsum, hcov⟩ := ih
    have hfold : (l ++ [e]).foldl insertEntry [] = insertEntry (l.foldl insertEntry []) e := by
      simp [List.foldl_append]
    rw [hfold]
    exact insertEntry_step e hnd hsum hcov

lemma insertByTotalDesc_perm (x : String × TaskSummary) :
    ∀ l, List.Perm (insertByTotalDesc x l) (x :: l) := by
  intro l
  induction l with
  | nil => exact List.Perm.refl _
  | cons y ys ih =>
    unfold insertByTotalDesc
    by_cases h : y.2.totalMinutes ≤ x.2.totalMinutes
    · simp only [h, if_true]
      exact List.Perm.refl _
    · simp only [h, if_false]
      exact (ih.cons y).trans (List.Perm.swap x y ys)

lemma sortByTotalDesc_perm : ∀ l, List.Perm (sortByTotalDesc l) l := by
  intro l
  induction l with
  | nil => exact List.Perm.refl _
  | cons x l ih =>
    have hx : sortByTotalDesc (x :: l) = insertByTotalDesc x (sortByTotalDesc l) := rfl
    rw [hx]
    exact (insertByTotalDesc_perm x (sortByTotalDesc l)).trans (ih.cons x)

lemma insertByTotalDesc_pairwise {l : List (String × TaskSummary)}
    (x : String × TaskSummary)
    (h : l.Pairwise fun a b => b.2.totalMinutes ≤ a.2.totalMinutes) :
    (insertByTotalDesc x l).Pairwise fun a b => b.2.totalMinutes ≤ a.2.totalMinutes := by
  induction l with
  | nil => simp [insertByTotalDesc]
  | cons y ys ih =>
    unfold insertByTotalDesc
    obtain ⟨hy, hys⟩ := List.pairwise_cons.mp h
    by_cases hc : y.2.totalMinutes ≤ x.2.totalMinutes
    · simp only [hc, if_true]
      refine List.pairwise_cons.mpr ⟨?_, h⟩
      intro z hz
      rcases List.mem_cons.mp hz with rfl | hz2
      · exact hc
      · exact le_trans (hy z hz2) hc
    · simp only [hc, if_false]
      refine List.pairwise_cons.mpr ⟨?_, ih hys⟩
      intro z hz
      rcases List.mem_cons.mp ((insertByTotalDesc_perm x ys).mem_iff.mp hz) with rfl | h2
      · exact le_of_lt (lt_of_not_le hc)
      · exact hy z h2

lemma sortByTotalDesc_pairwise :
    ∀ l, (sortByTotalDesc l).Pairwise fun a b => b.2.totalMinutes ≤ a.2.totalMinutes := by
  intro l
  induction l with
  | nil => simp [sortByTotalDesc]
  | cons x l ih => exact insertByTotalDesc_pairwise x ih

/-- C7: `buildTaskSummaryMap` groups by exact task name — every produced
summary totals, counts, and collects the distinct dates of exactly its
task's entries, every entry's task appears, the mapping is ordered by total
minutes descending (deterministically, as a pure function with a stable
insertion for ties) — and the spec's example aggregates A before B. -/
theorem buildTaskSummaryMap_grouping :
    (∀ entries : List WorkLogEntry,
      (∀ p ∈ buildTaskSummaryMap entries,
        p.2.totalMinutes = ((filterTask entries p.1).map WorkLogEntry.durationMinutes).sum ∧
        p.2.sessionCount = (filterTask entries p.1).length ∧
        p.2.workDays.Nodup ∧
        (∀ d, d ∈ p.2.workDays ↔ d ∈ (filterTask entries p.1).map WorkLogEntry.date)) ∧
      (∀ e ∈ entries, e.taskName ∈ (buildTaskSummaryMap entries).map Prod.fst) ∧
      (buildTaskSummaryMap entries).Pairwise
        (fun a b => b.2.totalMinutes ≤ a.2.totalMinutes)) ∧
    buildTaskSummaryMap
        [⟨"2024-01-01", "09:00", "09:30", "A", "", 30⟩,
         ⟨"2024-01-01", "09:30", "09:50", "B", "", 20⟩,
         ⟨"2024-01-01", "10:00", "10:10", "A", "", 10⟩] =
      [("A", ⟨"A", 40, 2, ["2024-01-01"]⟩), ("B", ⟨"B", 20, 1, ["2024-01-01"]⟩)] := by
  refine ⟨?_, by decide⟩
  intro entries
  obtain ⟨hnd, hsum, hcov⟩ := groupFold_inv entries
  have hperm := sortByTotalDesc_perm (entries.foldl insertEntry [])
  refine ⟨?_, ?_, ?_⟩
  · intro p hp
    have hpm : p ∈ entries.foldl insertEntry [] := hperm.mem_iff.mp hp
    obtain ⟨-, h2, h3, h4, h5⟩ := hsum p hpm
    exact ⟨h2, h3, h4, h5⟩
  · intro e he
    have := hcov e he
    exact ((hperm.map Prod.fst).mem_iff).mpr this
  · exact sortByTotalDesc_pairwise (entries.foldl insertEntry [])

/-- C7 witness: the grouping facts applied to the spec's example list, read
off for the entry of task B. -/
theorem buildTaskSummaryMap_grouping_witness :
    ("B", (⟨"B", 20, 1, ["2024-01-01"]⟩ : TaskSummary)) ∈
      buildTaskSummaryMap
        [⟨"2024-01-01", "09:00", "09:30", "A", "", 30⟩,
         ⟨"2024-01-01", "09:30", "09:50", "B", "", 20⟩,
         ⟨"2024-01-01", "10:00", "10:10", "A", "", 10⟩] ∧
    (⟨"B", 20, 1, ["2024-01-01"]⟩ : TaskSummary).totalMinutes =
      ((filterTask
          [⟨"2024-01-01", "09:00", "09:30", "A", "", 30⟩,
           ⟨"2024-01-01", "09:30", "09:50", "B", "", 20⟩,
           ⟨"2024-01-01", "10:00", "10:10", "A", "", 10⟩] "B").map
        WorkLogEntry.durationMinutes).sum := by
  have h := (buildTaskSummaryMap_grouping.1
    [⟨"2024-01-01", "09:00", "09:30", "A", "", 30⟩,
     ⟨"2024-01-01", "09:30", "09:50", "B", "", 20⟩,
     ⟨"2024-01-01", "10:00", "10:10", "A", "", 10⟩]).1
    ("B", (⟨"B", 20, 1, ["2024-01-01"]⟩ : TaskSummary)) (by decide)
  exact ⟨by decide, h.1⟩

/-! ## Claim C1 -/

lemma lexLe_refl : ∀ l : List Char, lexLe l l = true := by
  intro l
  induction l with
  | nil => rfl
  | cons a as ih => simp [lexLe, lt_irrefl, ih]

lemma lexLe_trans : ∀ a b c : List Char,
    lexLe a b = true → lexLe b c = true → lexLe a c = true := by
  intro a
  induction a with
  | nil => intro b c _ _; rfl
  | cons x xs ih =>
    intro b c hab hbc
    cases b with
    | nil => simp [lexLe] at hab
    | cons y ys =>
      cases c with
      | nil => simp [lexLe] at hbc
      | cons z zs =>
        by_cases h1 : x < y
        · by_cases h2 : y < z
          · simp [lexLe, lt_trans h1 h2]
          · by_cases h3 : z < y
            · simp [lexLe, h2, h3] at hbc
            · have hyz : y = z := le_antisymm (not_lt.mp h3) (not_lt.mp h2)
              simp [lexLe, hyz ▸ h1]
        · by_cases h1' : y < x
          · simp [lexLe, h1, h1'] at hab
          · have hxy : x = y := le_antisymm (not_lt.mp h1') (not_lt.mp h1)
            subst hxy
            simp only [lexLe, h1, if_neg h1, if_false] at hab
            by_cases h2 : x < z
            · simp [lexLe, h2]
            · by_cases h3 : z < x
              · simp [lexLe, h2, h3] at hbc
              · simp only [lexLe, h2, h3, if_neg h2, if_neg h3, if_false] at hbc ⊢
                exact ih ys zs hab hbc

lemma lexLe_total : ∀ a b : List Char, lexLe a b = true ∨ lexLe b a = true := by
  intro a
  induction a with
  | nil => intro b; exact Or.inl rfl
  | cons x xs ih =>
    intro b
    cases b with
    | nil => exact Or.inr rfl
    | cons y ys =>
      by_cases h1 : x < y
      · exact Or.inl (by simp [lexLe, h1])
      · by_cases h2 : y < x
        · exact Or.inr (by simp [lexLe, h2])
        · rcases ih ys with h | h
          · exact Or.inl (by simp [lexLe, h1, h2, h])
          · exact Or.inr (by simp [lexLe, h1, h2, h])

lemma sortByEndTimeDesc_head_dominates :
    ∀ (l : List WorkLogEntry) (e : WorkLogEntry) (rest : List WorkLogEntry),
      sortByEndTimeDesc l = e :: rest →
      ∀ x ∈ l, lexLe x.endTime.data e.endTime.data = true := by
  intro l
  induction l with
  | nil => intro e rest h; exact absurd h (by simp [sortByEndTimeDesc])
  | cons a l ih =>
    intro e rest h x hx
    have hsort : sortByEndTimeDesc (a :: l) = insertByEndTimeDesc a (sortByEndTimeDesc l) := rfl
    rw [hsort] at h
    cases hs : sortByEndTimeDesc l with
    | nil =>
      rw [hs] at h
      have ha : insertByEndTimeDesc a [] = [a] := rfl
      rw [ha] at h
      cases h
      rcases List.mem_cons.mp hx with rfl | hx2
      · exact lexLe_refl _
      · -- l is empty: its sorted copy is empty, so it has no members
        have : l = [] := by
          cases l with
          | nil => rfl
          | cons b t =>
            exfalso
            have hsl : sortByEndTimeDesc (b :: t) =
                insertByEndTimeDesc b (sortByEndTimeDesc t) := rfl
            rw [hsl] at hs
            cases hbt : sortByEndTimeDesc t with
            | nil => rw [hbt] at hs; exact List.noConfusion hs
            | cons c cs =>
              rw [hbt] at hs
              unfold insertByEndTimeDesc at hs
              by_cases hc : lexLe c.endTime.data b.endTime.data
              · rw [if_pos hc] at hs; exact List.noConfusion hs
              · rw [if_neg hc] at hs; exact List.noConfusion hs
        rw [this] at hx2
        exact absurd hx2 (List.not_mem_nil x)
    | cons f fs =>
      rw [hs] at h
      unfold insertByEndTimeDesc at h
      by_cases hc : lexLe f.endTime.data a.endTime.data
      · rw [if_pos hc] at h
        -- a is the new head
        obtain ⟨rfl, -⟩ : a = e ∧ f :: fs = rest := by
          cases h; exact ⟨rfl, rfl⟩
        rcases List.mem_cons.mp hx with rfl | hx2
        · exact lexLe_refl _
        · have hxf := ih f fs hs x hx2
          exact lexLe_trans _ _ _ hxf hc
      · rw [if_neg hc] at h
        -- f stays the head
        obtain ⟨rfl, -⟩ : f = e ∧ insertByEndTimeDesc a fs = rest := by
          cases h; exact ⟨rfl, rfl⟩
        rcases List.mem_cons.mp hx with rfl | hx2
        · rcases lexLe_total x.endTime.data f.endTime.data with h2 | h2
          · exact h2
          · exact absurd h2 hc
        · exact ih f fs hs x hx2

lemma sortByEndTimeDesc_nil_iff :
    ∀ l : List WorkLogEntry, sortByEndTimeDesc l = [] ↔ l = [] := by
  intro l
  cases l with
  | nil => simp [sortByEndTimeDesc]
  | cons a t =>
    constructor
    · intro h
      exfalso
      have hsort : sortByEndTimeDesc (a :: t) = insertByEndTimeDesc a (sortByEndTimeDesc t) := rfl
      rw [hsort] at h
      cases hs : sortByEndTimeDesc t with
      | nil => rw [hs] at h; exact List.noConfusion h
      | cons c cs =>
        rw [hs] at h
        unfold insertByEndTimeDesc at h
        by_cases hc : lexLe c.endTime.data a.endTime.data
        · rw [if_pos hc] at h; exact List.noConfusion h
        · rw [if_neg hc] at h; exact List.noConfusion h
    · intro h; exact List.noConfusion h

lemma predictedEndText_eq_minutesToTimeStr :
    ∀ m : Int, predictedEndText m = minutesToTimeStr m :=
  fun _ => rfl

/-- C1 counterexample: plan 3h, one matching logged hour ending 11:00 →
remaining 120 and latest end 660. The claim's lunch-adjusted prediction is
`adjustForLunchBreak 660 120 = 840` ("14:00"), but `calculateSchedule`
renders the naive end 660+120 = 780 ("13:00") — it never applies the
lunch-adjustment algorithm. -/
theorem calculateSchedule_lunch_counterexample :
    calculateSchedule "## PLAN\n- [[A]] 3h\n## LOG\n- 10:00-11:00 [[A]]\n"
        testSettings "2024-01-01" 540 = "⏰ 予定終了: 13:00 (残り: 2時間)" ∧
    parseTimeToMinutes "11:00" = some 660 ∧
    (∀ x ∈ parseLogEntries "## PLAN\n- [[A]] 3h\n## LOG\n- 10:00-11:00 [[A]]\n"
        "2024-01-01" testSettings, lexLe x.endTime.data ("11:00").data = true) ∧
    adjustForLunchBreak 660 120 testSettings.lunchStartTime testSettings.lunchEndTime =
      some 840 ∧
    minutesToTimeStr 840 = "14:00" ∧
    ("13:00" : String) ≠ "14:00" := by
  decide

/-- C1 (amended): `calculateSchedule` produces exactly one of three textual
states — "no plan set" when the planned total is 0, "completed, overrun"
when planned minus matched-logged is ≤ 0, and otherwise "predicted end /
remaining" — where the predicted end is the *naive* sum of the latest log
entry's end time (or the current clock time when nothing is logged) and the
remaining minutes, wrapped modulo 24h, with no lunch-break adjustment. -/
theorem calculateSchedule_three_states :
    ∀ (content : String) (settings : PluginSettings) (today : String) (nowMinutes : Int)
      (plans : List PlanEntry) (logs : List WorkLogEntry) (planned matched : Int),
      parsePlanEntries content settings = plans →
      parseLogEntries content today settings = logs →
      (plans.map PlanEntry.plannedMinutes).foldl (· + ·) 0 = planned →
      ((logs.filter fun e => (plans.map PlanEntry.taskName).contains e.taskName).map
        WorkLogEntry.durationMinutes).foldl (· + ·) 0 = matched →
      (planned = 0 →
        calculateSchedule content settings today nowMinutes = "📝 予定未設定") ∧
      (¬planned = 0 → planned - matched ≤ 0 →
        calculateSchedule content settings today nowMinutes =
          "✅ 予定完了 (+" ++ formatDuration ((planned - matched).natAbs : Int) ++ ")") ∧
      (¬planned = 0 → 0 < planned - matched → logs = [] →
        calculateSchedule content settings today nowMinutes =
          "⏰ 予定終了: " ++ minutesToTimeStr (nowMinutes + (planned - matched))
            ++ " (残り: " ++ formatDuration (planned - matched) ++ ")") ∧
      (¬planned = 0 → 0 < planned - matched →
        ∀ e rest, sortByEndTimeDesc logs = e :: rest →
          (∀ x ∈ logs, lexLe x.endTime.data e.endTime.data = true) ∧
          ∀ em, parseTimeToMinutes e.endTime = some em →
            calculateSchedule content settings today nowMinutes =
              "⏰ 予定終了: " ++ minutesToTimeStr (em + (planned - matched))
                ++ " (残り: " ++ formatDuration (planned - matched) ++ ")") := by
  intro content settings today nowMinutes plans logs planned matched hpl hlg hpd hmt
  unfold calculateSchedule
  dsimp only
  rw [hpl, hlg, hpd, hmt]
  refine ⟨?_, ?_, ?_, ?_⟩
  · intro h0
    rw [if_pos h0]
  · intro h0 hle
    rw [if_neg h0, if_pos hle]
  · intro h0 hpos hnil
    rw [if_neg h0, if_neg (not_le.mpr hpos), hnil]
    have hs : sortByEndTimeDesc ([] : List WorkLogEntry) = [] := rfl
    rw [hs]
    rw [predictedEndText_eq_minutesToTimeStr]
  · intro h0 hpos e rest hsort
    refine ⟨sortByEndTimeDesc_head_dominates logs e rest hsort, ?_⟩
    intro em hem
    rw [if_neg h0, if_neg (not_le.mpr hpos), hsort]
    dsimp only
    rw [hem]
    dsimp only
    rw [predictedEndText_eq_minutesToTimeStr]

/-- C1 witness: the three-state description applied at a document whose
matched logged time exceeds the plan, giving the completed state. -/
theorem calculateSchedule_three_states_witness :
    calculateSchedule "## PLAN\n- [[A]] 1h\n## LOG\n- 09:00-10:30 [[A]]\n"
      testSettings "2024-01-01" 540 = "✅ 予定完了 (+30分)" := by
  have h := calculateSchedule_three_states
    "## PLAN\n- [[A]] 1h\n## LOG\n- 09:00-10:30 [[A]]\n" testSettings "2024-01-01" 540
    (parsePlanEntries "## PLAN\n- [[A]] 1h\n## LOG\n- 09:00-10:30 [[A]]\n" testSettings)
    (parseLogEntries "## PLAN\n- [[A]] 1h\n## LOG\n- 09:00-10:30 [[A]]\n"
      "2024-01-01" testSettings)
    60 90 rfl rfl (by decide) (by decide)
  rw [h.2.1 (by decide) (by decide)]
  decide

end ObsidianTodo
